import Mathlib

/-!
Verification of the SentiView client-side aggregation core.

This development shallowly embeds the aggregation logic of
`src/sentiview/src/app/page.tsx` (the `handleSave` callback and the `summary`
memo), the upload validation and mock analyzer of the emotion-upload-analyzer
component, and the helper averages of the analytics dashboard component.

Modelling conventions:
* JavaScript numbers are modelled as rationals (`ℚ`); the one place the code
  takes a square root (the stability score) is modelled over the reals.
* A `Date` is modelled by its calendar-day key, a natural number: the code
  only ever groups timestamps through `formatDayKey` (ISO day string), and
  distinct day keys stay distinct while equal days stay equal.
* A `Record<Emotion, number>` with the fixed seven keys is modelled as a total
  function `Emotion → ℚ`; iteration order over `Object.keys`/`Object.values`
  follows the insertion order of the corresponding object literal, captured by
  `emotionList` and `analyzerEmotionList`.
* The stable JavaScript `Array.prototype.sort` is modelled by
  `List.insertionSort`, which is also a stable sort, with the same total
  preorder as the JS comparator.
-/

/-- The seven dashboard emotion categories (`Emotion` in the dashboard
component), in the insertion order of the object literals of `page.tsx`. -/
inductive Emotion where
  | joy
  | sadness
  | anger
  | fear
  | surprise
  | disgust
  | neutral
deriving DecidableEq, Repr

/-- The seven analyzer emotion labels (`AnalyzerEmotion` in `page.tsx`,
`Emotion` in the upload analyzer). -/
inductive AnalyzerEmotion where
  | happy
  | sad
  | angry
  | surprised
  | disgusted
  | fearful
  | neutral
deriving DecidableEq, Repr

/-- Key order of the `Record<DashboardEmotion, number>` literals in
`page.tsx` (`distribution`, `converted`, `sum`, `countTop`), which is the
order `Object.keys`/`Object.values`/`Object.entries` iterate them. -/
def emotionList : List Emotion :=
  [.joy, .sadness, .anger, .fear, .surprise, .disgust, .neutral]

/-- The `EMOTIONS` array of the upload analyzer, which is also the key order
of the score records it produces. -/
def analyzerEmotionList : List AnalyzerEmotion :=
  [.happy, .sad, .angry, .surprised, .disgusted, .fearful, .neutral]

/-- `analyzerToDashboardMap` of `page.tsx`. -/
def analyzerToDashboardMap : AnalyzerEmotion → Emotion
  | .happy => .joy
  | .sad => .sadness
  | .angry => .anger
  | .surprised => .surprise
  | .disgusted => .disgust
  | .fearful => .fear
  | .neutral => .neutral

/-- `Math.max(0, Math.min(1, x))`, the clamp used throughout the code
(`handleSave` line 192 and 237, `clamp01` in the dashboard component). -/
def clamp01 (x : ℚ) : ℚ := max 0 (min 1 x)

/-- A time-series point (`TimePoint` of the dashboard component): the date is
modelled by its day key, the score record by a total function. -/
structure TimePoint where
  date : ℕ
  scores : Emotion → ℚ

/-- A daily heatmap entry (`HeatmapDay` of the dashboard component). -/
structure HeatmapDay where
  date : ℕ
  score : ℚ
deriving DecidableEq, Repr

/-- The in-memory aggregation state of `page.tsx` that the claims are about:
`timeSeries`, `distribution` and `heatmap`. -/
structure AppState where
  timeSeries : List TimePoint
  distribution : Emotion → ℚ
  heatmap : List HeatmapDay

/-- The initial state of `page.tsx`: empty series, all-zero distribution,
empty heatmap. -/
def initialState : AppState :=
  { timeSeries := []
    distribution := fun _ => 0
    heatmap := [] }

/-- `Object.values` of a dashboard score record: the values in key-insertion
order. -/
def valuesList (s : Emotion → ℚ) : List ℚ := emotionList.map s

/-- The `converted` record built by `handleSave` (lines 180–193): start from
the all-zero literal and, for each analyzer key `k`, add
`Math.max(0, Math.min(1, payload.scores[k] ?? 0))` to the mapped dashboard
key. -/
def convertScores (raw : AnalyzerEmotion → ℚ) : Emotion → ℚ :=
  analyzerEmotionList.foldl
    (fun acc k => fun e =>
      if e = analyzerToDashboardMap k then acc e + clamp01 (raw k) else acc e)
    (fun _ => 0)

/-- The `setDistribution` updater of `handleSave` (lines 204–211): for each
key `e` of `converted`, `next[e] = (next[e] ?? 0) + converted[e]`. -/
def updateDistribution (prev conv : Emotion → ℚ) : Emotion → ℚ :=
  emotionList.foldl
    (fun acc e0 => fun e => if e = e0 then acc e + conv e0 else acc e)
    prev

/-- The per-event mean used for the heatmap (`handleSave` lines 224–225):
`Object.values(converted).reduce((a, b) => a + b, 0) /
Math.max(1, Object.values(converted).length)`.  (The trailing `|| 0` only
replaces a zero or NaN result by `0`, which is the identity over `ℚ`.) -/
def heatmapMean (s : Emotion → ℚ) : ℚ :=
  (valuesList s).sum / (max 1 (valuesList s).length : ℕ)

/-- An entry of the intermediate `byKey` map of the `setHeatmap` updater:
`{ date, total, count }`. -/
structure DayAgg where
  date : ℕ
  total : ℚ
  count : ℕ

/-- Seeding of the `byKey` map from the previous heatmap (`handleSave` lines
215–221): every existing day becomes `{ date, total: d.score, count: 1 }`. -/
def seedByKey (prev : List HeatmapDay) : List DayAgg :=
  prev.map (fun d => { date := d.date, total := d.score, count := 1 })

/-- The `setHeatmap` updater of `handleSave` (lines 213–239) before the final
sort: seed `byKey` from the previous heatmap, combine the new sample `mean`
into day `kNow` (or insert it), then clamp every total to `[0, 1]`.
`Map.set` on an existing key replaces in place and on a fresh key appends,
which is mirrored by the in-place `map` and the `++ [⬝]`. -/
def updateHeatmapRaw (prev : List HeatmapDay) (kNow : ℕ) (mean : ℚ) :
    List HeatmapDay :=
  let byKey : List DayAgg := seedByKey prev
  let byKey2 : List DayAgg :=
    match byKey.find? (fun a => a.date == kNow) with
    | some existing =>
        byKey.map (fun a =>
          if a.date == kNow then
            { date := a.date,
              total := (existing.total * existing.count + mean) /
                (existing.count + 1 : ℕ),
              count := existing.count + 1 }
          else a)
    | none => byKey ++ [{ date := kNow, total := mean, count := 1 }]
  byKey2.map (fun a => { date := a.date, score := clamp01 a.total })

/-- The comparator of the final heatmap sort
(`.sort((a, b) => +new Date(a.date) - +new Date(b.date))`): ascending by
date. -/
def hmLe (a b : HeatmapDay) : Prop := a.date ≤ b.date

instance : DecidableRel hmLe := fun a b => Nat.decLe a.date b.date

/-- The full `setHeatmap` updater: combine the new sample, then return the
entries sorted ascending by date (a stable sort; the JS `sort` is stable). -/
def updateHeatmap (prev : List HeatmapDay) (kNow : ℕ) (mean : ℚ) :
    List HeatmapDay :=
  (updateHeatmapRaw prev kNow mean).insertionSort hmLe

/-- One `handleSave` call of `page.tsx`, restricted to the aggregation state:
append the converted event to the time series, add it into the cumulative
distribution, and fold its mean into the heatmap day `day`. -/
def handleSave (st : AppState) (day : ℕ) (raw : AnalyzerEmotion → ℚ) :
    AppState :=
  let converted := convertScores raw
  { timeSeries := st.timeSeries ++ [{ date := day, scores := converted }]
    distribution := updateDistribution st.distribution converted
    heatmap := updateHeatmap st.heatmap day (heatmapMean converted) }

/-- A saved analysis event as it enters `handleSave`: its day key and the raw
analyzer score record. -/
def SaveEvent : Type := ℕ × (AnalyzerEmotion → ℚ)

/-- Running a sequence of saves from the initial state. -/
def runSaves (evs : List SaveEvent) : AppState :=
  evs.foldl (fun st ev => handleSave st ev.1 ev.2) initialState

/-- Looking a day up in the heatmap: the score of the first entry with that
date, if any. -/
def heatmapScoreOf (h : List HeatmapDay) (d : ℕ) : Option ℚ :=
  (h.find? (fun x => x.date == d)).map (fun x => x.score)

/-- The per-event means, in save order, of the events of a given day: this is
what the heatmap aggregates for that day. -/
def dayMeans (evs : List SaveEvent) (d : ℕ) : List ℚ :=
  (evs.filter (fun ev => ev.1 == d)).map
    (fun ev => heatmapMean (convertScores ev.2))

/-- The iterated pairwise average actually computed by the heatmap updater
for one day: the first event's mean, then each later event's mean averaged
with the current value. -/
def runningPairAvg (ms : List ℚ) : Option ℚ :=
  match ms with
  | [] => none
  | m :: rest => some (rest.foldl (fun s m2 => (s + m2) / 2) m)

/-- The daily aggregate as the specification words it: the arithmetic average
of the per-event means of the day (`none` when the day has no event). -/
def arithMeanOpt (ms : List ℚ) : Option ℚ :=
  if ms = [] then none else some (ms.sum / (ms.length : ℕ))

/-- Mean-or-zero of a list of values: `vals.length ? sum / length : 0`, the
guarded average used for per-event averages in `summary` (lines 295–298), for
`avgBlock`'s inner averages, and for `overallByDate` in the dashboard
component. -/
def meanOrZero (l : List ℚ) : ℚ :=
  if l.length = 0 then 0 else l.sum / (l.length : ℕ)

/-- The per-event average intensity of a time point: the mean of the values
of its score record. -/
def eventAvg (p : TimePoint) : ℚ := meanOrZero (valuesList p.scores)

/-- The `avgs` array of `summary` (lines 295–298): per-event average
intensities in series order. -/
def avgsList (ts : List TimePoint) : List ℚ := ts.map eventAvg

/-- The `mean` of `summary` (line 299): `avgs.length ? sum / length : 0`. -/
def meanAvgs (ts : List TimePoint) : ℚ := meanOrZero (avgsList ts)

/-- The `variance` of `summary` (lines 300–301): the sample variance of the
per-event averages when there are at least two, otherwise `0`. -/
def varianceAvgs (ts : List TimePoint) : ℚ :=
  if 1 < (avgsList ts).length then
    ((avgsList ts).map (fun v => (v - meanAvgs ts) ^ 2)).sum /
      (((avgsList ts).length : ℚ) - 1)
  else 0

/-- The `std` of `summary` (line 302): `Math.sqrt(variance)`. -/
noncomputable def stdAvgs (ts : List TimePoint) : ℝ :=
  Real.sqrt (varianceAvgs ts)

/-- `Math.round`: round half away from zero toward plus infinity, i.e.
`⌊x + 1/2⌋`. -/
noncomputable def jsRound (x : ℝ) : ℤ := ⌊x + 1 / 2⌋

/-- The `stabilityScore` of `summary` (line 303):
`Math.max(0, Math.min(100, Math.round(100 - std * 100)))`. -/
noncomputable def stabilityScore (ts : List TimePoint) : ℤ :=
  max 0 (min 100 (jsRound (100 - stdAvgs ts * 100)))

/-- The `sum` record of `summary` (lines 275–288): per-emotion summed
intensity over all events. -/
def sumScores (ts : List TimePoint) : Emotion → ℚ :=
  ts.foldl (fun acc p => fun e => acc e + p.scores e) (fun _ => 0)

/-- `Object.entries` of a dashboard score record, in key-insertion order. -/
def entriesOf (s : Emotion → ℚ) : List (Emotion × ℚ) :=
  emotionList.map (fun e => (e, s e))

/-- The total preorder of the JS comparator `(a, b) => b[1] - a[1]`:
descending by value. -/
def entryGe (a b : Emotion × ℚ) : Prop := b.2 ≤ a.2

instance : DecidableRel entryGe :=
  fun a b => inferInstanceAs (Decidable (b.2 ≤ a.2))

instance : IsTotal (Emotion × ℚ) entryGe :=
  ⟨fun a b => (le_total b.2 a.2).elim Or.inl Or.inr⟩

instance : IsTrans (Emotion × ℚ) entryGe :=
  ⟨fun _ _ _ h1 h2 => le_trans h2 h1⟩

/-- A stable descending-by-value sort of score entries, the model of
`.sort((a, b) => b[1] - a[1])`. -/
def sortDesc (l : List (Emotion × ℚ)) : List (Emotion × ℚ) :=
  l.insertionSort entryGe

/-- The `dominantEmotion` of `summary` (lines 289–292): first key of the
entries of `sum` sorted descending by value, or `null` for an empty entry
list. -/
def dominantEmotion (ts : List TimePoint) : Option Emotion :=
  ((sortDesc (entriesOf (sumScores ts))).map Prod.fst).head?

/-- `timeSeries.slice(-14)` (line 306). -/
def last14 (ts : List TimePoint) : List TimePoint := ts.drop (ts.length - 14)

/-- `last14.slice(-7)` (line 307). -/
def last7 (ts : List TimePoint) : List TimePoint :=
  (last14 ts).drop ((last14 ts).length - 7)

/-- `last14.slice(0, Math.max(0, last14.length - 7))` (line 308). -/
def prev7 (ts : List TimePoint) : List TimePoint :=
  (last14 ts).take ((last14 ts).length - 7)

/-- The `avgBlock` helper of `summary` (lines 309–317): `0` for an empty
block, otherwise the plain mean of the per-event averages of the block. -/
def avgBlock (arr : List TimePoint) : ℚ :=
  if arr.length = 0 then 0
  else (arr.map eventAvg).sum / (arr.length : ℕ)

/-- The `changePct` of `summary` (lines 318–320):
`a1 === 0 ? (a2 > 0 ? 100 : 0) : ((a2 - a1) / a1) * 100`. -/
def changePct (ts : List TimePoint) : ℚ :=
  let a1 := avgBlock (prev7 ts)
  let a2 := avgBlock (last7 ts)
  if a1 = 0 then (if 0 < a2 then 100 else 0) else ((a2 - a1) / a1) * 100

/-- The `countTop` record of `summary` (lines 323–336): for each event, the
first entry of its scores sorted descending by value gets its count bumped. -/
def countTop (ts : List TimePoint) : Emotion → ℕ :=
  ts.foldl
    (fun acc p =>
      match (sortDesc (entriesOf p.scores)).head? with
      | some top => fun e => if e = top.1 then acc e + 1 else acc e
      | none => acc)
    (fun _ => 0)

/-- The `mostFrequentEmotions` of `summary` (lines 337–339): the entries of
`countTop` with positive count, in key order. -/
def mostFrequentEmotions (ts : List TimePoint) : List (Emotion × ℕ) :=
  (emotionList.map (fun e => (e, countTop ts e))).filter (fun p => 0 < p.2)

/-- The `SummaryMetrics` record of the dashboard component: note
`dominantEmotion` is declared nullable there. -/
structure SummaryMetrics where
  totalAnalyses : ℕ
  dominantEmotion : Option Emotion
  stabilityScore : ℤ
  changePct : ℚ
  mostFrequentEmotions : List (Emotion × ℕ)

/-- The `summary` memo of `page.tsx` (lines 271–348) as a function of the
time series it reads. -/
noncomputable def summary (ts : List TimePoint) : SummaryMetrics :=
  { totalAnalyses := ts.length
    dominantEmotion := dominantEmotion ts
    stabilityScore := stabilityScore ts
    changePct := changePct ts
    mostFrequentEmotions := mostFrequentEmotions ts }

/-- The `summary` memo seen as a state reader: it computes the metrics from
the time series and does not modify it (`useMemo` only reads `timeSeries`). -/
noncomputable def computeSummary (ts : List TimePoint) :
    SummaryMetrics × List TimePoint :=
  (summary ts, ts)

/-- The fields of a browser `File` that validation and the mock analyzer
inspect. -/
structure JsFile where
  mime : String
  size : ℕ

/-- The default of the `maxFileSizeMB` prop of the upload analyzer. -/
def defaultMaxFileSizeMB : ℕ := 10

/-- `validateFile` of the upload analyzer: reject a non-`image/` MIME type,
then a size above `maxFileSizeMB * 1024 * 1024` bytes; otherwise no error. -/
def validateFile (maxFileSizeMB : ℕ) (f : JsFile) : Option String :=
  let maxBytes := maxFileSizeMB * 1024 * 1024
  if ¬ f.mime.startsWith "image/" then
    some "Please upload a valid image file."
  else if f.size > maxBytes then
    some ("File is too large. Max size is " ++ toString maxFileSizeMB ++ "MB.")
  else none

/-- The decision taken by `onSelectFile`/`onDrop`: analysis starts
(`handleNewFile` is called) exactly when `validateFile` returns no error. -/
def analysisStarts (maxFileSizeMB : ℕ) (f : JsFile) : Bool :=
  (validateFile maxFileSizeMB f).isNone

/-- The seed of `mockAnalyze`: `Math.max(1, file.size % 97)`. -/
def mockSeed (size : ℕ) : ℕ := max 1 (size % 97)

/-- The `vals` array of `mockAnalyze`:
`EMOTIONS.map((_, i) => ((seed * (i + 13)) % 100) + 1)`. -/
def mockVals (seed : ℕ) : List ℕ :=
  (List.range analyzerEmotionList.length).map
    (fun i => seed * (i + 13) % 100 + 1)

/-- The score record computed by `mockAnalyze` from a seed:
`scores[e] = vals[indexOf e] / sum(vals)`. -/
def mockScoresFromSeed (seed : ℕ) (e : AnalyzerEmotion) : ℚ :=
  ((mockVals seed).getD (analyzerEmotionList.indexOf e) 0 : ℕ) /
    ((mockVals seed).sum : ℕ)

/-- `mockAnalyze` of the upload analyzer, as a function of the only file
attribute it reads: the size. -/
def mockAnalyze (size : ℕ) : AnalyzerEmotion → ℚ :=
  mockScoresFromSeed (mockSeed size)

/-- Inverse of `analyzerToDashboardMap` (the mapping is a bijection); used
only to state pointwise characterizations. -/
def dashboardToAnalyzerMap : Emotion → AnalyzerEmotion
  | .joy => .happy
  | .sadness => .sad
  | .anger => .angry
  | .surprise => .surprised
  | .disgust => .disgusted
  | .fear => .fearful
  | .neutral => .neutral

/-- Invariant tying the heatmap state to the history of saves: day keys are
unique and the stored score of each day is the iterated pairwise average of
that day's event means. -/
def HeatOK (evs : List SaveEvent) (h : List HeatmapDay) : Prop :=
  ((h.map (fun x => x.date)).Nodup) ∧
  ∀ d, heatmapScoreOf h d = runningPairAvg (dayMeans evs d)

/-- The three same-day saves used to separate the heatmap's pairwise
averaging from a true daily arithmetic mean: two all-zero events and one
all-one event on day `0`. -/
def cexEvents : List SaveEvent :=
  [(0, fun _ => (0 : ℚ)), (0, fun _ => (0 : ℚ)), (0, fun _ => (1 : ℚ))]

/-- The `overallByDate` memo of the dashboard component (part_000 lines
465–472): empty for an empty series, otherwise per-event clamped
mean-or-zero values by date. -/
def overallByDate (series : List TimePoint) : List (ℕ × ℚ) :=
  if series.length = 0 then []
  else series.map (fun p => (p.date, clamp01 (meanOrZero (valuesList p.scores))))

lemma clamp01_nonneg (x : ℚ) : 0 ≤ clamp01 x := le_max_left 0 _

lemma clamp01_le_one (x : ℚ) : clamp01 x ≤ 1 :=
  max_le (by norm_num) (min_le_left 1 x)

lemma clamp01_of_mem (x : ℚ) (h0 : 0 ≤ x) (h1 : x ≤ 1) : clamp01 x = x := by
  unfold clamp01
  rw [min_eq_right h1, max_eq_right h0]

lemma mem_emotionList (e : Emotion) : e ∈ emotionList := by
  cases e <;> simp [emotionList]

lemma convertScores_eq (raw : AnalyzerEmotion → ℚ) (e : Emotion) :
    convertScores raw e = clamp01 (raw (dashboardToAnalyzerMap e)) := by
  cases e <;>
    simp [convertScores, analyzerEmotionList, analyzerToDashboardMap,
      dashboardToAnalyzerMap, List.foldl]

lemma convertScores_nonneg (raw : AnalyzerEmotion → ℚ) (e : Emotion) :
    0 ≤ convertScores raw e := by
  rw [convertScores_eq]; exact clamp01_nonneg _

lemma convertScores_le_one (raw : AnalyzerEmotion → ℚ) (e : Emotion) :
    convertScores raw e ≤ 1 := by
  rw [convertScores_eq]; exact clamp01_le_one _

lemma updateDistribution_eq (prev conv : Emotion → ℚ) (e : Emotion) :
    updateDistribution prev conv e = prev e + conv e := by
  cases e <;> simp [updateDistribution, emotionList, List.foldl]

lemma valuesList_eq (s : Emotion → ℚ) :
    valuesList s = [s .joy, s .sadness, s .anger, s .fear, s .surprise,
      s .disgust, s .neutral] := rfl

lemma heatmapMean_eq (s : Emotion → ℚ) :
    heatmapMean s = (valuesList s).sum / 7 := by
  simp [heatmapMean, valuesList, emotionList]

lemma heatmapMean_nonneg (raw : AnalyzerEmotion → ℚ) :
    0 ≤ heatmapMean (convertScores raw) := by
  rw [heatmapMean_eq, valuesList_eq]
  have h := fun e => convertScores_nonneg raw e
  simp only [List.sum_cons, List.sum_nil]
  apply div_nonneg _ (by norm_num)
  linarith [h Emotion.joy, h Emotion.sadness, h Emotion.anger, h Emotion.fear,
    h Emotion.surprise, h Emotion.disgust, h Emotion.neutral]

lemma heatmapMean_le_one (raw : AnalyzerEmotion → ℚ) :
    heatmapMean (convertScores raw) ≤ 1 := by
  rw [heatmapMean_eq, valuesList_eq]
  have h := fun e => convertScores_le_one raw e
  simp only [List.sum_cons, List.sum_nil]
  rw [div_le_one (by norm_num)]
  linarith [h Emotion.joy, h Emotion.sadness, h Emotion.anger, h Emotion.fear,
    h Emotion.surprise, h Emotion.disgust, h Emotion.neutral]

lemma sumScores_eq (ts : List TimePoint) (e : Emotion) :
    sumScores ts e = (ts.map (fun p => p.scores e)).sum := by
  have aux : ∀ (l : List TimePoint) (acc : Emotion → ℚ),
      l.foldl (fun acc p => fun e => acc e + p.scores e) acc e
        = acc e + (l.map (fun p => p.scores e)).sum := by
    intro l
    induction l with
    | nil => intro acc; simp
    | cons p rest ih =>
        intro acc
        simp [List.foldl_cons, ih, add_assoc]
  simpa using aux ts (fun _ => 0)

lemma find?_seedByKey (prev : List HeatmapDay) (d : ℕ) :
    (seedByKey prev).find? (fun a => a.date == d)
      = (prev.find? (fun x => x.date == d)).map
          (fun x => { date := x.date, total := x.score, count := 1 }) := by
  unfold seedByKey
  rw [List.find?_map]
  rfl

lemma heatmapScoreOf_updateRaw_ne (prev : List HeatmapDay) (k : ℕ) (m : ℚ)
    (d : ℕ) (hne : d ≠ k) :
    heatmapScoreOf (updateHeatmapRaw prev k m) d
      = (heatmapScoreOf prev d).map clamp01 := by
  unfold updateHeatmapRaw heatmapScoreOf
  cases hfind : (seedByKey prev).find? (fun a => a.date == k) with
  | some existing =>
      simp only [hfind]
      rw [List.find?_map, List.find?_map]
      have hpred :
          (((fun x : HeatmapDay => x.date == d) ∘
            (fun a : DayAgg => { date := a.date, score := clamp01 a.total })) ∘
            (fun a : DayAgg =>
              if a.date == k then
                { date := a.date,
                  total := (existing.total * existing.count + m) /
                    ((existing.count + 1 : ℕ) : ℚ),
                  count := existing.count + 1 }
              else a))
          = fun a : DayAgg => a.date == d := by
        funext a
        by_cases h : a.date = k <;> simp [h]
      rw [hpred, find?_seedByKey]
      cases hp : prev.find? (fun x => x.date == d) with
      | none => simp
      | some x =>
          have hx : ((fun x : HeatmapDay => x.date == d) x) = true :=
            @List.find?_some _ (fun x : HeatmapDay => x.date == d) x prev hp
          have hxd : x.date = d := by simpa using hx
          have hxk : ¬ x.date = k := by rw [hxd]; exact hne
          simp [hxk]
  | none =>
      simp only [hfind]
      rw [List.map_append, List.find?_append]
      rw [List.find?_map]
      have hpred :
          ((fun x : HeatmapDay => x.date == d) ∘
            (fun a : DayAgg => { date := a.date, score := clamp01 a.total }))
          = fun a : DayAgg => a.date == d := by
        funext a; rfl
      rw [hpred, find?_seedByKey]
      have hlast : (List.map
          (fun a : DayAgg => ({ date := a.date, score := clamp01 a.total } : HeatmapDay))
          [{ date := k, total := m, count := 1 }]).find?
            (fun x => x.date == d) = none := by
        have hbeq : (k == d) = false :=
          beq_eq_false_iff_ne.mpr (fun h => hne h.symm)
        simp [List.find?, hbeq]
      rw [hlast]
      cases hp : prev.find? (fun x => x.date == d) with
      | none => simp
      | some x => simp

lemma heatmapScoreOf_updateRaw_self (prev : List HeatmapDay) (k : ℕ) (m : ℚ) :
    heatmapScoreOf (updateHeatmapRaw prev k m) k
      = some (match heatmapScoreOf prev k with
              | some s => clamp01 ((s + m) / 2)
              | none => clamp01 m) := by
  unfold updateHeatmapRaw heatmapScoreOf
  cases hp : prev.find? (fun x => x.date == k) with
  | some x =>
      have hfind : (seedByKey prev).find? (fun a => a.date == k)
          = some { date := x.date, total := x.score, count := 1 } := by
        rw [find?_seedByKey, hp]; rfl
      have hx : ((fun x : HeatmapDay => x.date == k) x) = true :=
        @List.find?_some _ (fun x : HeatmapDay => x.date == k) x prev hp
      have hxk : x.date = k := by simpa using hx
      simp only [hfind, hp]
      rw [List.find?_map, List.find?_map]
      have hpred :
          (((fun y : HeatmapDay => y.date == k) ∘
            (fun a : DayAgg => { date := a.date, score := clamp01 a.total })) ∘
            (fun a : DayAgg =>
              if a.date == k then
                { date := a.date,
                  total := (x.score * ((1 : ℕ) : ℚ) + m) / (((1 + 1 : ℕ)) : ℚ),
                  count := 1 + 1 }
              else a))
          = fun a : DayAgg => a.date == k := by
        funext a
        by_cases h : a.date = k <;> simp [h]
      rw [hpred, find?_seedByKey, hp]
      have hxx : (x.date == k) = true := by simpa using hxk
      simp [hxx]
      simp [hxk]
  | none =>
      have hfind : (seedByKey prev).find? (fun a => a.date == k) = none := by
        rw [find?_seedByKey, hp]; rfl
      simp only [hfind, hp]
      rw [List.map_append, List.find?_append, List.find?_map]
      have hpred :
          ((fun y : HeatmapDay => y.date == k) ∘
            (fun a : DayAgg => { date := a.date, score := clamp01 a.total }))
          = fun a : DayAgg => a.date == k := by
        funext a; rfl
      rw [hpred, hfind]
      simp [List.find?]

lemma dates_updateRaw (prev : List HeatmapDay) (k : ℕ) (m : ℚ) :
    (updateHeatmapRaw prev k m).map (fun x => x.date)
      = if (prev.find? (fun x => x.date == k)).isSome
        then prev.map (fun x => x.date)
        else prev.map (fun x => x.date) ++ [k] := by
  unfold updateHeatmapRaw
  cases hp : prev.find? (fun x => x.date == k) with
  | some x =>
      have hfind : (seedByKey prev).find? (fun a => a.date == k)
          = some { date := x.date, total := x.score, count := 1 } := by
        rw [find?_seedByKey, hp]; rfl
      simp only [hfind, hp, Option.isSome_some, if_pos]
      rw [List.map_map, List.map_map]
      unfold seedByKey
      rw [List.map_map]
      apply List.map_congr_left
      intro a _
      by_cases h : a.date = k <;> simp [h]
  | none =>
      have hfind : (seedByKey prev).find? (fun a => a.date == k) = none := by
        rw [find?_seedByKey, hp]; rfl
      simp only [hfind, hp, Option.isSome_none, Bool.false_eq_true, if_neg,
        not_false_iff]
      simp [seedByKey, List.map_map, Function.comp]

lemma find?_date_eq_of_perm {l l' : List HeatmapDay} (hperm : l.Perm l')
    (hn : (l.map (fun x => x.date)).Nodup) (d : ℕ) :
    l.find? (fun x => x.date == d) = l'.find? (fun x => x.date == d) := by
  cases hfl : l.find? (fun x => x.date == d) with
  | none =>
      rw [List.find?_eq_none] at hfl
      symm
      rw [List.find?_eq_none]
      intro x hx
      exact hfl x (hperm.mem_iff.mpr hx)
  | some a =>
      have ha : ((fun x : HeatmapDay => x.date == d) a) = true :=
        @List.find?_some _ (fun x : HeatmapDay => x.date == d) a l hfl
      have hal : a ∈ l := List.mem_of_find?_eq_some hfl
      cases hfl' : l'.find? (fun x => x.date == d) with
      | none =>
          rw [List.find?_eq_none] at hfl'
          exact absurd ha (by simpa using hfl' a (hperm.mem_iff.mp hal))
      | some b =>
          have hb : ((fun x : HeatmapDay => x.date == d) b) = true :=
            @List.find?_some _ (fun x : HeatmapDay => x.date == d) b l' hfl'
          have hbl : b ∈ l := hperm.mem_iff.mpr (List.mem_of_find?_eq_some hfl')
          have hdates : a.date = b.date := by
            have ha' : a.date = d := by simpa using ha
            have hb' : b.date = d := by simpa using hb
            rw [ha', hb']
          have : a = b := List.inj_on_of_nodup_map hn hal hbl hdates
          rw [this]

lemma datesNodup_updateRaw {prev : List HeatmapDay} (k : ℕ) (m : ℚ)
    (hn : (prev.map (fun x => x.date)).Nodup) :
    ((updateHeatmapRaw prev k m).map (fun x => x.date)).Nodup := by
  rw [dates_updateRaw]
  cases hp : prev.find? (fun x => x.date == k) with
  | some x => simpa using hn
  | none =>
      simp only [Option.isSome_none, Bool.false_eq_true, if_neg, not_false_iff]
      rw [List.find?_eq_none] at hp
      have hk : k ∉ prev.map (fun x => x.date) := by
        intro hmem
        obtain ⟨x, hx, hxd⟩ := List.mem_map.mp hmem
        exact hp x hx (by simpa using hxd)
      simp [List.nodup_append, hn, hk]

lemma heatmapScoreOf_update (prev : List HeatmapDay) (k : ℕ) (m : ℚ) (d : ℕ)
    (hn : (prev.map (fun x => x.date)).Nodup) :
    heatmapScoreOf (updateHeatmap prev k m) d
      = heatmapScoreOf (updateHeatmapRaw prev k m) d := by
  unfold updateHeatmap heatmapScoreOf
  have h := find?_date_eq_of_perm
    ((List.perm_insertionSort hmLe (updateHeatmapRaw prev k m)).symm)
    (datesNodup_updateRaw k m hn) d
  rw [← h]

lemma datesNodup_update {prev : List HeatmapDay} (k : ℕ) (m : ℚ)
    (hn : (prev.map (fun x => x.date)).Nodup) :
    ((updateHeatmap prev k m).map (fun x => x.date)).Nodup := by
  unfold updateHeatmap
  exact (((List.perm_insertionSort hmLe _).map _).nodup_iff).mpr
    (datesNodup_updateRaw k m hn)

lemma runningPairAvg_snoc (ms : List ℚ) (m : ℚ) :
    runningPairAvg (ms ++ [m])
      = some (match runningPairAvg ms with
              | some s => (s + m) / 2
              | none => m) := by
  cases ms with
  | nil => rfl
  | cons a rest => simp [runningPairAvg, List.foldl_append]

lemma runningPairAvg_mem_unit (ms : List ℚ)
    (hb : ∀ x ∈ ms, 0 ≤ x ∧ x ≤ 1) (q : ℚ)
    (hq : runningPairAvg ms = some q) : 0 ≤ q ∧ q ≤ 1 := by
  cases ms with
  | nil => simp [runningPairAvg] at hq
  | cons a rest =>
      simp only [runningPairAvg, Option.some_inj] at hq
      subst hq
      have aux : ∀ (l : List ℚ) (s : ℚ), 0 ≤ s ∧ s ≤ 1 →
          (∀ x ∈ l, 0 ≤ x ∧ x ≤ 1) →
          0 ≤ l.foldl (fun s m2 => (s + m2) / 2) s ∧
            l.foldl (fun s m2 => (s + m2) / 2) s ≤ 1 := by
        intro l
        induction l with
        | nil => intro s hs _; simpa using hs
        | cons b bs ih =>
            intro s hs hl
            have hb' := hl b (List.mem_cons_self b bs)
            refine ih ((s + b) / 2) ⟨by linarith [hs.1, hb'.1], by
              linarith [hs.2, hb'.2]⟩ (fun x hx => hl x (List.mem_cons_of_mem b hx))
      exact aux rest a (hb a (List.mem_cons_self a rest))
        (fun x hx => hb x (List.mem_cons_of_mem a hx))

lemma dayMeans_nil (d : ℕ) : dayMeans [] d = [] := rfl

lemma dayMeans_snoc (evs : List SaveEvent) (ev : SaveEvent) (d : ℕ) :
    dayMeans (evs ++ [ev]) d
      = dayMeans evs d ++
          (if ev.1 = d then [heatmapMean (convertScores ev.2)] else []) := by
  unfold dayMeans
  rw [List.filter_append, List.map_append]
  congr 1
  by_cases h : ev.1 = d
  · simp [List.filter, h]
  · have hbeq : (ev.1 == d) = false := beq_eq_false_iff_ne.mpr h
    simp [List.filter, hbeq, h]

lemma dayMeans_mem_unit (evs : List SaveEvent) (d : ℕ) :
    ∀ x ∈ dayMeans evs d, 0 ≤ x ∧ x ≤ 1 := by
  intro x hx
  unfold dayMeans at hx
  obtain ⟨ev, _, rfl⟩ := List.mem_map.mp hx
  exact ⟨heatmapMean_nonneg ev.2, heatmapMean_le_one ev.2⟩

lemma runSaves_snoc (evs : List SaveEvent) (ev : SaveEvent) :
    runSaves (evs ++ [ev]) = handleSave (runSaves evs) ev.1 ev.2 := by
  unfold runSaves
  rw [List.foldl_append]
  rfl

lemma heatOK_runSaves (evs : List SaveEvent) :
    HeatOK evs (runSaves evs).heatmap := by
  induction evs using List.reverseRecOn with
  | nil =>
      constructor
      · simp [runSaves, initialState]
      · intro d
        simp [runSaves, initialState, heatmapScoreOf, dayMeans, runningPairAvg]
  | append_singleton evs ev ih =>
      obtain ⟨ihn, ihl⟩ := ih
      rw [runSaves_snoc]
      have hm0 := heatmapMean_nonneg ev.2
      have hm1 := heatmapMean_le_one ev.2
      constructor
      · exact datesNodup_update ev.1 (heatmapMean (convertScores ev.2)) ihn
      · intro d
        rw [show (handleSave (runSaves evs) ev.1 ev.2).heatmap
              = updateHeatmap (runSaves evs).heatmap ev.1
                  (heatmapMean (convertScores ev.2)) from rfl]
        rw [heatmapScoreOf_update _ _ _ _ ihn]
        by_cases hd : d = ev.1
        · subst hd
          rw [heatmapScoreOf_updateRaw_self, ihl ev.1, dayMeans_snoc,
            if_pos rfl, runningPairAvg_snoc]
          cases hr : runningPairAvg (dayMeans evs ev.1) with
          | none => simp [clamp01_of_mem _ hm0 hm1]
          | some s =>
              have hs := runningPairAvg_mem_unit (dayMeans evs ev.1)
                (dayMeans_mem_unit evs ev.1) s hr
              simp only []
              rw [clamp01_of_mem _ (by linarith [hs.1, hm0]) (by
                linarith [hs.2, hm1])]
        · rw [heatmapScoreOf_updateRaw_ne _ _ _ _ hd, ihl d, dayMeans_snoc]
          have hne' : ¬ ev.1 = d := fun h => hd h.symm
          rw [if_neg hne', List.append_nil]
          cases hr : runningPairAvg (dayMeans evs d) with
          | none => simp
          | some s =>
              have hs := runningPairAvg_mem_unit (dayMeans evs d)
                (dayMeans_mem_unit evs d) s hr
              simp [clamp01_of_mem _ hs.1 hs.2]

lemma runningPairAvg_eq_arith_of_le_two (ms : List ℚ) (h : ms.length ≤ 2) :
    runningPairAvg ms = arithMeanOpt ms := by
  match ms with
  | [] => rfl
  | [a] =>
      simp [runningPairAvg, arithMeanOpt]
  | [a, b] =>
      simp [runningPairAvg, arithMeanOpt]
  | a :: b :: c :: rest =>
      simp at h

lemma convertScores_const_zero :
    convertScores (fun _ => (0 : ℚ)) = fun _ => (0 : ℚ) := by
  funext e
  rw [convertScores_eq]
  simp [clamp01]

lemma convertScores_const_one :
    convertScores (fun _ => (1 : ℚ)) = fun _ => (1 : ℚ) := by
  funext e
  rw [convertScores_eq]
  simp [clamp01]

lemma heatmapMean_const_zero :
    heatmapMean (convertScores (fun _ => (0 : ℚ))) = 0 := by
  rw [convertScores_const_zero, heatmapMean_eq, valuesList_eq]
  norm_num

lemma heatmapMean_const_one :
    heatmapMean (convertScores (fun _ => (1 : ℚ))) = 1 := by
  rw [convertScores_const_one, heatmapMean_eq, valuesList_eq]
  norm_num

lemma dayMeans_cexEvents : dayMeans cexEvents 0 = [0, 0, 1] := by
  unfold dayMeans cexEvents
  simp [List.filter, heatmapMean_const_zero, heatmapMean_const_one]

/-- C1 (amended): after any sequence of saves, the heatmap entry for a day is
the iterated pairwise average of that day's per-event means — the first
event's mean, each later mean averaged with the current score — which lies
in `[0, 1]` and coincides with the arithmetic average only for days with at
most two events. -/
theorem heatmap_day_score_spec (evs : List SaveEvent) (d : ℕ) :
    heatmapScoreOf (runSaves evs).heatmap d = runningPairAvg (dayMeans evs d)
    ∧ (∀ q, heatmapScoreOf (runSaves evs).heatmap d = some q →
        0 ≤ q ∧ q ≤ 1)
    ∧ ((dayMeans evs d).length ≤ 2 →
        heatmapScoreOf (runSaves evs).heatmap d = arithMeanOpt (dayMeans evs d)) := by
  have h := (heatOK_runSaves evs).2 d
  refine ⟨h, ?_, ?_⟩
  · intro q hq
    rw [h] at hq
    exact runningPairAvg_mem_unit (dayMeans evs d) (dayMeans_mem_unit evs d) q hq
  · intro hlen
    rw [h, runningPairAvg_eq_arith_of_le_two _ hlen]

/-- C1 witness: for a single all-one event on day `0` the heatmap stores
score `1`, which is in range and equals the day's arithmetic mean. -/
theorem heatmap_day_score_spec_witness :
    (0 ≤ (1 : ℚ) ∧ (1 : ℚ) ≤ 1)
    ∧ heatmapScoreOf (runSaves [(0, fun _ => (1 : ℚ))]).heatmap 0
        = arithMeanOpt (dayMeans [(0, fun _ => (1 : ℚ))] 0) := by
  have h := heatmap_day_score_spec [(0, fun _ => (1 : ℚ))] 0
  have hdm : dayMeans [(0, fun _ => (1 : ℚ))] 0 = [1] := by
    unfold dayMeans
    simp [List.filter, heatmapMean_const_one]
  constructor
  · apply h.2.1 1
    rw [h.1, hdm]
    rfl
  · apply h.2.2
    rw [hdm]
    simp

/-- C1 counterexample: for three events on day `0` with means `0, 0, 1` the
stored heatmap score is `1/2` while the arithmetic average of the per-event
means is `1/3`. -/
theorem heatmap_day_score_cex :
    heatmapScoreOf (runSaves cexEvents).heatmap 0 = some (1 / 2)
    ∧ arithMeanOpt (dayMeans cexEvents 0) = some (1 / 3)
    ∧ heatmapScoreOf (runSaves cexEvents).heatmap 0
        ≠ arithMeanOpt (dayMeans cexEvents 0) := by
  have h := (heatOK_runSaves cexEvents).2 0
  have h01 : ([0, 0, 1] : List ℚ) ≠ [] := by simp
  refine ⟨?_, ?_, ?_⟩
  · rw [h, dayMeans_cexEvents]
    norm_num [runningPairAvg]
  · rw [dayMeans_cexEvents]
    unfold arithMeanOpt
    rw [if_neg h01]
    norm_num
  · rw [h, dayMeans_cexEvents]
    unfold arithMeanOpt
    rw [if_neg h01]
    norm_num [runningPairAvg]

lemma timeSeries_runSaves (evs : List SaveEvent) :
    (runSaves evs).timeSeries
      = evs.map (fun ev => { date := ev.1, scores := convertScores ev.2 }) := by
  induction evs using List.reverseRecOn with
  | nil => rfl
  | append_singleton evs ev ih =>
      rw [runSaves_snoc, List.map_append]
      rw [show (handleSave (runSaves evs) ev.1 ev.2).timeSeries
            = (runSaves evs).timeSeries ++
                [{ date := ev.1, scores := convertScores ev.2 }] from rfl, ih]
      rfl

lemma distribution_runSaves (evs : List SaveEvent) (e : Emotion) :
    (runSaves evs).distribution e
      = (evs.map (fun ev => convertScores ev.2 e)).sum := by
  induction evs using List.reverseRecOn with
  | nil => rfl
  | append_singleton evs ev ih =>
      rw [runSaves_snoc, List.map_append, List.sum_append]
      rw [show (handleSave (runSaves evs) ev.1 ev.2).distribution
            = updateDistribution (runSaves evs).distribution
                (convertScores ev.2) from rfl]
      rw [updateDistribution_eq, ih]
      simp

lemma mem_updateHeatmap_unit (prev : List HeatmapDay) (k : ℕ) (m : ℚ) :
    ∀ x ∈ updateHeatmap prev k m, 0 ≤ x.score ∧ x.score ≤ 1 := by
  intro x hx
  unfold updateHeatmap at hx
  have hx' := (List.perm_insertionSort hmLe (updateHeatmapRaw prev k m)).mem_iff.mp hx
  simp only [updateHeatmapRaw, List.mem_map] at hx'
  obtain ⟨a, _, rfl⟩ := hx'
  exact ⟨clamp01_nonneg _, clamp01_le_one _⟩

/-- C3: after any sequence of saves — with arbitrary, possibly out-of-range
raw analyzer outputs — every per-emotion intensity stored in the time series
and every heatmap day score lies in `[0, 1]`, and every emotion key of a
stored score map comes from the fixed seven-element emotion set. -/
theorem state_scores_clamped (evs : List SaveEvent) :
    (∀ p ∈ (runSaves evs).timeSeries, ∀ e : Emotion,
        0 ≤ p.scores e ∧ p.scores e ≤ 1)
    ∧ (∀ x ∈ (runSaves evs).heatmap, 0 ≤ x.score ∧ x.score ≤ 1)
    ∧ (∀ e : Emotion, e ∈ emotionList) := by
  refine ⟨?_, ?_, mem_emotionList⟩
  · intro p hp e
    rw [timeSeries_runSaves] at hp
    obtain ⟨ev, _, rfl⟩ := List.mem_map.mp hp
    exact ⟨convertScores_nonneg ev.2 e, convertScores_le_one ev.2 e⟩
  · induction evs using List.reverseRecOn with
    | nil => intro x hx; simp [runSaves, initialState] at hx
    | append_singleton evs ev _ =>
        rw [runSaves_snoc]
        exact mem_updateHeatmap_unit (runSaves evs).heatmap ev.1
          (heatmapMean (convertScores ev.2))

/-- C3 witness: a single save with the out-of-range constant raw score `2`
leaves a stored joy intensity in `[0, 1]` (indeed clamped to `1`), keeps the
single heatmap entry in range, and the key `joy` is in the emotion set. -/
theorem state_scores_clamped_witness :
    (0 ≤ convertScores (fun _ => (2 : ℚ)) Emotion.joy
      ∧ convertScores (fun _ => (2 : ℚ)) Emotion.joy ≤ 1)
    ∧ Emotion.joy ∈ emotionList := by
  have h := state_scores_clamped [(0, fun _ => (2 : ℚ))]
  refine ⟨?_, h.2.2 Emotion.joy⟩
  apply h.1 { date := 0, scores := convertScores (fun _ => (2 : ℚ)) }
  · rw [timeSeries_runSaves]
    simp

/-- C4: the distribution is cumulative — each save adds the new event's
clamped intensity to every emotion's tally, so after any sequence of saves
it equals the sum of that emotion's clamped intensities over all saved
events, and it never decreases from one save to the next. -/
theorem distribution_cumulative :
    (∀ (st : AppState) (day : ℕ) (raw : AnalyzerEmotion → ℚ) (e : Emotion),
        (handleSave st day raw).distribution e
          = st.distribution e + convertScores raw e)
    ∧ (∀ (evs : List SaveEvent) (e : Emotion),
        (runSaves evs).distribution e
          = (evs.map (fun ev => convertScores ev.2 e)).sum)
    ∧ (∀ (evs : List SaveEvent) (ev : SaveEvent) (e : Emotion),
        (runSaves evs).distribution e
          ≤ (runSaves (evs ++ [ev])).distribution e) := by
  refine ⟨?_, distribution_runSaves, ?_⟩
  · intro st day raw e
    exact updateDistribution_eq st.distribution (convertScores raw) e
  · intro evs ev e
    rw [runSaves_snoc]
    rw [show (handleSave (runSaves evs) ev.1 ev.2).distribution
          = updateDistribution (runSaves evs).distribution
              (convertScores ev.2) from rfl]
    rw [updateDistribution_eq]
    have := convertScores_nonneg ev.2 e
    linarith

/-- C5: every average treats the empty input as zero rather than dividing by
zero: the mean of an empty value list is `0`, `avgBlock` of an empty block
is `0`, the mean of per-event averages of an empty series is `0`,
`overallByDate` of an empty series is empty, the heatmap mean always divides
by the constant `7`, and whenever a division happens its divisor (the input
length) is non-zero, witnessed by multiplying the average back. -/
theorem averages_empty_safe :
    meanOrZero [] = 0
    ∧ avgBlock [] = 0
    ∧ meanAvgs [] = 0
    ∧ overallByDate [] = []
    ∧ (∀ s : Emotion → ℚ, heatmapMean s = (valuesList s).sum / 7)
    ∧ (∀ l : List ℚ, l ≠ [] → meanOrZero l * (l.length : ℚ) = l.sum)
    ∧ (∀ arr : List TimePoint, arr ≠ [] →
        avgBlock arr * (arr.length : ℚ) = (arr.map eventAvg).sum) := by
  refine ⟨rfl, by simp [avgBlock], by simp [meanAvgs, avgsList, meanOrZero],
    rfl, heatmapMean_eq, ?_, ?_⟩
  · intro l hl
    have hlen : l.length ≠ 0 := by simpa [List.length_eq_zero] using hl
    have hq : (l.length : ℚ) ≠ 0 := by exact_mod_cast hlen
    rw [meanOrZero, if_neg hlen, div_mul_cancel₀ _ hq]
  · intro arr harr
    have hlen : arr.length ≠ 0 := by simpa [List.length_eq_zero] using harr
    have hq : (arr.length : ℚ) ≠ 0 := by exact_mod_cast hlen
    rw [avgBlock, if_neg hlen, div_mul_cancel₀ _ hq]

/-- C5 witness: the guarded averages evaluated at concrete non-empty
inputs. -/
theorem averages_empty_safe_witness :
    meanOrZero [(1 : ℚ)] * (([(1 : ℚ)].length : ℕ) : ℚ) = [(1 : ℚ)].sum
    ∧ avgBlock [{ date := 0, scores := fun _ => 0 }] *
        (([({ date := 0, scores := fun _ => 0 } : TimePoint)].length : ℕ) : ℚ)
      = ([({ date := 0, scores := fun _ => 0 } : TimePoint)].map eventAvg).sum := by
  constructor
  · exact averages_empty_safe.2.2.2.2.2.1 [(1 : ℚ)] (by simp)
  · exact averages_empty_safe.2.2.2.2.2.2
      [{ date := 0, scores := fun _ => 0 }] (by simp)

lemma varianceAvgs_of_short {ts : List TimePoint} (h : ts.length < 2) :
    varianceAvgs ts = 0 := by
  rw [varianceAvgs, if_neg]
  rw [avgsList, List.length_map]
  omega

/-- C2: the stability score is the clamp to `[0, 100]` of
`Math.round(100 − 100·s)` where `s` is the sample standard deviation of the
per-event average intensities; it always lies in `0..100` and equals `100`
for fewer than two events. -/
theorem stability_score_spec (ts : List TimePoint) :
    (0 ≤ stabilityScore ts ∧ stabilityScore ts ≤ 100)
    ∧ (ts.length < 2 → stabilityScore ts = 100)
    ∧ stabilityScore ts
        = max 0 (min 100 (jsRound (100 - Real.sqrt (varianceAvgs ts) * 100))) := by
  refine ⟨⟨le_max_left 0 _, max_le (by norm_num) (min_le_left 100 _)⟩, ?_, rfl⟩
  intro h
  rw [stabilityScore, stdAvgs, varianceAvgs_of_short h]
  have h100 : jsRound (100 - Real.sqrt ((0 : ℚ)) * 100) = 100 := by
    rw [jsRound]
    norm_num [Real.sqrt_zero]
  rw [h100]
  norm_num

/-- C2 witness: the empty series has stability score exactly `100`, within
bounds. -/
theorem stability_score_spec_witness :
    (0 ≤ stabilityScore [] ∧ stabilityScore [] ≤ 100)
    ∧ stabilityScore [] = 100 := by
  exact ⟨(stability_score_spec []).1,
    (stability_score_spec []).2.1 (by simp)⟩

/-- C10: whenever the earlier compared block has average `0` — which always
happens with at most seven analyses, since the earlier block is then empty —
the change percentage is exactly `100` if the latest block's average is
positive and `0` otherwise. -/
theorem change_pct_zero_baseline (ts : List TimePoint) :
    (ts.length ≤ 7 → prev7 ts = [])
    ∧ (avgBlock (prev7 ts) = 0 →
        changePct ts = if 0 < avgBlock (last7 ts) then 100 else 0) := by
  constructor
  · intro h
    have hlen : (last14 ts).length - 7 = 0 := by
      rw [last14, List.length_drop]
      omega
    rw [prev7, hlen, List.take_zero]
  · intro h
    rw [changePct]
    simp only [h, if_pos rfl]
    simp

/-- C10 witness: with no events the earlier block is empty and the change
percentage is the guarded value. -/
theorem change_pct_zero_baseline_witness :
    prev7 [] = []
    ∧ changePct [] = if 0 < avgBlock (last7 []) then 100 else 0 := by
  refine ⟨(change_pct_zero_baseline []).1 (by simp),
    (change_pct_zero_baseline []).2 ?_⟩
  simp [prev7, last14, avgBlock]

/-- C8: the summary is a pure, deterministic function of the event list —
equal lists yield equal metrics records — and computing it leaves the event
list unchanged. -/
theorem summary_pure :
    (∀ ts₁ ts₂ : List TimePoint, ts₁ = ts₂ →
        (computeSummary ts₁).1 = (computeSummary ts₂).1)
    ∧ (∀ ts : List TimePoint, (computeSummary ts).2 = ts) :=
  ⟨fun _ _ h => by rw [h], fun _ => rfl⟩

/-- C8 witness: instantiated at the empty series. -/
theorem summary_pure_witness :
    (computeSummary ([] : List TimePoint)).1 = (computeSummary []).1
    ∧ (computeSummary ([] : List TimePoint)).2 = [] :=
  ⟨summary_pure.1 [] [] rfl, summary_pure.2 []⟩

/-- C6: a file is rejected with an error message, and no analysis starts, if
and only if its MIME type does not start with `image/` or its size exceeds
`maxFileSizeMB * 1024 * 1024` bytes; a file satisfying both conditions
validates with no error and analysis proceeds.  The prop defaults to
`10` megabytes. -/
theorem upload_validation_iff (maxMB : ℕ) (f : JsFile) :
    (validateFile maxMB f = none ↔
      (f.mime.startsWith "image/" = true ∧ f.size ≤ maxMB * 1024 * 1024))
    ∧ ((∃ msg, validateFile maxMB f = some msg) ↔
      ¬ (f.mime.startsWith "image/" = true ∧ f.size ≤ maxMB * 1024 * 1024))
    ∧ (analysisStarts maxMB f = true ↔ validateFile maxMB f = none)
    ∧ defaultMaxFileSizeMB = 10 := by
  have hiff : validateFile maxMB f = none ↔
      (f.mime.startsWith "image/" = true ∧ f.size ≤ maxMB * 1024 * 1024) := by
    unfold validateFile
    by_cases h1 : f.mime.startsWith "image/" = true
    · by_cases h2 : f.size > maxMB * 1024 * 1024
      · simp [h1, h2]
      · simp [h1, h2]
        omega
    · simp [h1]
  refine ⟨hiff, ?_, ?_, rfl⟩
  · constructor
    · rintro ⟨msg, hmsg⟩ hcond
      rw [hiff.mpr hcond] at hmsg
      cases hmsg
    · intro hcond
      cases hv : validateFile maxMB f with
      | none => exact absurd (hiff.mp hv) hcond
      | some m => exact ⟨m, rfl⟩
  · unfold analysisStarts
    cases hv : validateFile maxMB f <;> simp [hv]

lemma mockVals_eq (s : ℕ) :
    mockVals s = [s * 13 % 100 + 1, s * 14 % 100 + 1, s * 15 % 100 + 1,
      s * 16 % 100 + 1, s * 17 % 100 + 1, s * 18 % 100 + 1,
      s * 19 % 100 + 1] := rfl

lemma mockVals_sum_pos (s : ℕ) : 0 < (mockVals s).sum := by
  rw [mockVals_eq]
  simp [List.sum_cons]

/-- C7: the placeholder analyzer's output depends only on
`max(1, size mod 97)` — files with equal seeds get identical score
vectors — and every produced vector has all scores positive and summing to
exactly `1`. -/
theorem mock_analyzer_spec :
    (∀ s1 s2 : ℕ, mockSeed s1 = mockSeed s2 → mockAnalyze s1 = mockAnalyze s2)
    ∧ (∀ (size : ℕ) (e : AnalyzerEmotion), 0 < mockAnalyze size e)
    ∧ (∀ size : ℕ, (analyzerEmotionList.map (mockAnalyze size)).sum = 1) := by
  refine ⟨?_, ?_, ?_⟩
  · intro s1 s2 h
    unfold mockAnalyze
    rw [h]
  · intro size e
    unfold mockAnalyze
    have hS : (0 : ℚ) < ((mockVals (mockSeed size)).sum : ℕ) := by
      exact_mod_cast mockVals_sum_pos (mockSeed size)
    have hnum : ∀ k : ℕ, (0 : ℚ) < ((mockSeed size * k % 100 + 1 : ℕ) : ℚ) := by
      intro k
      exact_mod_cast Nat.succ_pos _
    cases e with
    | happy => exact div_pos (hnum 13) hS
    | sad => exact div_pos (hnum 14) hS
    | angry => exact div_pos (hnum 15) hS
    | surprised => exact div_pos (hnum 16) hS
    | disgusted => exact div_pos (hnum 17) hS
    | fearful => exact div_pos (hnum 18) hS
    | neutral => exact div_pos (hnum 19) hS
  · intro size
    unfold mockAnalyze
    have hS : ((mockVals (mockSeed size)).sum : ℚ) ≠ 0 := by
      have := mockVals_sum_pos (mockSeed size)
      positivity
    set s := mockSeed size with hs
    have hexp : (analyzerEmotionList.map (mockScoresFromSeed s)).sum
        = (((s * 13 % 100 + 1 : ℕ) : ℚ) + ((s * 14 % 100 + 1 : ℕ) : ℚ)
          + ((s * 15 % 100 + 1 : ℕ) : ℚ) + ((s * 16 % 100 + 1 : ℕ) : ℚ)
          + ((s * 17 % 100 + 1 : ℕ) : ℚ) + ((s * 18 % 100 + 1 : ℕ) : ℚ)
          + ((s * 19 % 100 + 1 : ℕ) : ℚ)) / ((mockVals s).sum : ℕ) := by
      show (((s * 13 % 100 + 1 : ℕ) : ℚ) / ((mockVals s).sum : ℕ)
          + (((s * 14 % 100 + 1 : ℕ) : ℚ) / ((mockVals s).sum : ℕ)
          + (((s * 15 % 100 + 1 : ℕ) : ℚ) / ((mockVals s).sum : ℕ)
          + (((s * 16 % 100 + 1 : ℕ) : ℚ) / ((mockVals s).sum : ℕ)
          + (((s * 17 % 100 + 1 : ℕ) : ℚ) / ((mockVals s).sum : ℕ)
          + (((s * 18 % 100 + 1 : ℕ) : ℚ) / ((mockVals s).sum : ℕ)
          + (((s * 19 % 100 + 1 : ℕ) : ℚ) / ((mockVals s).sum : ℕ) + 0)))))))
          = _
      rw [add_zero]
      field_simp
      ring
    have hnum : (((s * 13 % 100 + 1 : ℕ) : ℚ) + ((s * 14 % 100 + 1 : ℕ) : ℚ)
        + ((s * 15 % 100 + 1 : ℕ) : ℚ) + ((s * 16 % 100 + 1 : ℕ) : ℚ)
        + ((s * 17 % 100 + 1 : ℕ) : ℚ) + ((s * 18 % 100 + 1 : ℕ) : ℚ)
        + ((s * 19 % 100 + 1 : ℕ) : ℚ)) = (((mockVals s).sum : ℕ) : ℚ) := by
      rw [mockVals_eq]
      simp only [List.sum_cons, List.sum_nil, add_zero]
      push_cast
      ring
    rw [hexp, hnum]
    exact div_self hS

/-- C7 witness: sizes `0` and `97` share the seed `max(1, size mod 97) = 1`
and therefore receive identical score vectors. -/
theorem mock_analyzer_spec_witness :
    mockSeed 0 = mockSeed 97 ∧ mockAnalyze 0 = mockAnalyze 97 := by
  have h : mockSeed 0 = mockSeed 97 := by decide
  exact ⟨h, mock_analyzer_spec.1 0 97 h⟩

lemma entriesOf_mem (s : Emotion → ℚ) (e : Emotion) :
    (e, s e) ∈ entriesOf s :=
  List.mem_map.mpr ⟨e, mem_emotionList e, rfl⟩

lemma mem_entriesOf {s : Emotion → ℚ} {p : Emotion × ℚ}
    (hp : p ∈ entriesOf s) : p.2 = s p.1 := by
  obtain ⟨e, _, rfl⟩ := List.mem_map.mp hp
  rfl

/-- C9: the dominant emotion of the summary is never `null`: it is always
some emotion whose summed intensity over all events is maximal — and for the
empty series it is `joy` (all sums tie at `0` and the stable sort keeps key
order), despite the nullable declaration of the dashboard's
`SummaryMetrics.dominantEmotion`. -/
theorem dominant_emotion_total :
    (∀ ts : List TimePoint, ∃ e : Emotion,
      (summary ts).dominantEmotion = some e
      ∧ ∀ e' : Emotion, sumScores ts e' ≤ sumScores ts e)
    ∧ (summary []).dominantEmotion = some Emotion.joy := by
  constructor
  · intro ts
    have hperm := List.perm_insertionSort entryGe (entriesOf (sumScores ts))
    have hsorted := List.sorted_insertionSort entryGe (entriesOf (sumScores ts))
    cases hsd : sortDesc (entriesOf (sumScores ts)) with
    | nil =>
        exfalso
        have : entriesOf (sumScores ts) = [] := by
          have h0 := hperm
          rw [show List.insertionSort entryGe (entriesOf (sumScores ts))
                = sortDesc (entriesOf (sumScores ts)) from rfl, hsd] at h0
          exact h0.symm.eq_nil
        simpa [entriesOf, emotionList] using congrArg List.length this
    | cons p rest =>
        refine ⟨p.1, ?_, ?_⟩
        · show dominantEmotion ts = some p.1
          unfold dominantEmotion
          rw [hsd]
          rfl
        · intro e'
          have hmem : (e', sumScores ts e') ∈ sortDesc (entriesOf (sumScores ts)) := by
            have := entriesOf_mem (sumScores ts) e'
            exact (List.perm_insertionSort entryGe _).mem_iff.mpr this
          have hp2 : p.2 = sumScores ts p.1 := by
            apply mem_entriesOf
            have : p ∈ sortDesc (entriesOf (sumScores ts)) := by
              rw [hsd]; exact List.mem_cons_self p rest
            exact (List.perm_insertionSort entryGe _).mem_iff.mp this
          rw [hsd] at hmem
          rcases List.mem_cons.mp hmem with h | h
          · have : e' = p.1 := congrArg Prod.fst h
            rw [this]
          · have hle : entryGe p (e', sumScores ts e') := by
              have hs := hsorted
              rw [show List.insertionSort entryGe (entriesOf (sumScores ts))
                    = sortDesc (entriesOf (sumScores ts)) from rfl, hsd] at hs
              exact List.rel_of_sorted_cons hs _ h
            unfold entryGe at hle
            rw [← hp2]
            exact hle
  · show dominantEmotion [] = some Emotion.joy
    decide
